import Mathlib

/-!
Verification of the witness-generation engine of the `Liestonn/plonky2`
repository against its natural-language specification.

The development shallowly embeds the two source files:
* `src/plonky2/src/iop/generator.rs` — the fixed-point generator runtime,
  the generator contract and the primitive generators;
* `src/evm/src/witness/memory.rs` — the simulated VM memory model and its
  timestamped memory operations.

Code of the repository that these files call but that is not part of the
two sources (the `PartitionWitness` store of `iop/witness.rs`, the channel
constants of `cpu/membus.rs`, the `Segment` enum of `memory/segments.rs`
and the byte-buffer serialization primitives of `util/serialization.rs`)
is modelled from the specification; each such definition carries a doc
comment starting with `Modelled from the spec:`.
-/

set_option maxHeartbeats 1000000

/-- A target identifies a cell in the witness: either a wire coordinate
`(row, column)` in the execution trace or a virtual target identifier
(source: `Target` in `iop/target.rs`, as described by the spec's data
model; the runtime in `iop/generator.rs` treats targets opaquely). -/
inductive Target where
  | wire (row : Nat) (column : Nat)
  | virtualTarget (index : Nat)
deriving DecidableEq

/-- `Target::wire(row, column)` constructor used by `ConstantGenerator`. -/
def Target.wireAt (row : Nat) (column : Nat) : Target :=
  Target.wire row column

/-- First-match association-list lookup, used to model the witness value
map and the `generator_indices_by_watches` hash map. -/
def assocLookup {α β : Type} [DecidableEq α] : List (α × β) → α → Option β
  | [], _ => none
  | p :: rest, a => if p.1 = a then some p.2 else assocLookup rest a

/-- Modelled from the spec: the `PartitionWitness` of `iop/witness.rs` is
not under `src/`.  Per §4.1 it is a partial map from representative
targets to field values together with a borrowed representative map
`rep` with `rep (rep t) = rep t`; values are keyed by representatives. -/
structure PartitionWitness (F : Type) where
  repMap : Target → Target
  vals : List (Target × F)

/-- Errors of the engine (§7): `Inconsistent` for an unequal second write,
`GeneratorsStalled` carrying the count of unfinished generators (the
source's assert message `"{} generators weren't run"` carries only the
count, at `generator.rs:92-96`). -/
inductive GenErr where
  | inconsistent
  | stalled (count : Nat)
deriving DecidableEq

/-- Modelled from the spec (§4.1): `set_returning_rep(t, v)` stores `v` at
`rep t` when absent and returns `some (rep t)`; an equal re-write is a
no-op returning `none`; an unequal re-write fails with `Inconsistent`. -/
def PartitionWitness.setTargetReturningRep {F : Type} [DecidableEq F]
    (w : PartitionWitness F) (t : Target) (v : F) :
    Except GenErr (PartitionWitness F × Option Target) :=
  let r := w.repMap t
  match assocLookup w.vals r with
  | none => .ok (⟨w.repMap, (r, v) :: w.vals⟩, some r)
  | some v' => if v' = v then .ok (w, none) else .error .inconsistent

/-- Modelled from the spec (§4.1): `set(t, v)` is `set_returning_rep`
without the returned representative. -/
def PartitionWitness.setTarget {F : Type} [DecidableEq F]
    (w : PartitionWitness F) (t : Target) (v : F) :
    Except GenErr (PartitionWitness F) :=
  (w.setTargetReturningRep t v).map (fun p => p.1)

/-- Modelled from the spec (§4.1): `try_get(t)` is the non-failing read at
the representative of `t`. -/
def PartitionWitness.tryGetTarget {F : Type} [DecidableEq F]
    (w : PartitionWitness F) (t : Target) : Option F :=
  assocLookup w.vals (w.repMap t)

/-- Modelled from the spec (§4.1): `get_target` returns the stored value
at `rep t`; in the source it fails with `NotPopulated` when the cell is
absent, and generators only call it on populated targets (the adapter
checks `contains_all` first), so the default is never observed there. -/
def PartitionWitness.getTarget {F : Type} [DecidableEq F] [Zero F]
    (w : PartitionWitness F) (t : Target) : F :=
  (w.tryGetTarget t).getD 0

/-- Modelled from the spec (§4.1): `contains t`. -/
def PartitionWitness.contains {F : Type} [DecidableEq F]
    (w : PartitionWitness F) (t : Target) : Bool :=
  (w.tryGetTarget t).isSome

/-- Modelled from the spec (§4.1): `contains_all ts`. -/
def PartitionWitness.containsAll {F : Type} [DecidableEq F]
    (w : PartitionWitness F) (ts : List Target) : Bool :=
  ts.all (fun t => w.contains t)

/-- A witness generator (trait `WitnessGenerator`, `generator.rs:102-119`):
a stable id, a watch list, and `run`, which reads the witness and returns
the finished flag together with the values appended to the (freshly
drained, hence empty) output buffer. -/
structure WitnessGenerator (F : Type) where
  id : String
  watchList : List Target
  run : PartitionWitness F → Bool × List (Target × F)

/-- The mutable state threaded through the rounds of
`generate_partial_witness` (`generator.rs:34-52`): the witness, the
`generator_is_expired` flags (the source's `vec![false; N]`, indexed by
generator index and only ever read at indices below `N`, modelled as a
total function), and the `remaining_generators` counter. -/
structure RoundState (F : Type) where
  witness : PartitionWitness F
  expired : Nat → Bool
  remaining : Nat

/-- Draining the `GeneratedValues` buffer (`generator.rs:71-74`): each
`(t, v)` pair is merged into the witness with `set_target_returning_rep`,
collecting in order the representatives of the newly populated targets. -/
def drainBuffer {F : Type} [DecidableEq F] :
    PartitionWitness F → List (Target × F) →
    Except GenErr (PartitionWitness F × List Target)
  | w, [] => .ok (w, [])
  | w, (t, v) :: rest =>
    match w.setTargetReturningRep t v with
    | .error e => .error e
    | .ok (w', none) => drainBuffer w' rest
    | .ok (w', some r) =>
      match drainBuffer w' rest with
      | .error e => .error e
      | .ok (w'', rs) => .ok (w'', r :: rs)

/-- One iteration of the inner `for` loop of `generate_partial_witness`
(`generator.rs:58-87`): skip the generator if expired, otherwise run it,
mark it expired when it finished, drain the buffer into the witness, and
enqueue every non-expired watcher of every newly populated
representative.  The second component is a ghost log recording the actual
invocation of `run` (the generator index and the returned flag).  The
`none` case of `gens[i]?` is unreachable for the index lists the source
ever builds (initial `0..len` and watch-index entries). -/
def stepGenerator {F : Type} [DecidableEq F]
    (gens : List (WitnessGenerator F)) (watchIdx : List (Target × List Nat))
    (st : RoundState F) (next : List Nat) (i : Nat) :
    Except GenErr (RoundState F × List Nat) × List (Nat × Bool) :=
  if st.expired i then (.ok (st, next), [])
  else
    match gens[i]? with
    | none => (.ok (st, next), [])
    | some g =>
      let finished := (g.run st.witness).1
      let buf := (g.run st.witness).2
      let expired' : Nat → Bool :=
        if finished then (fun j => if j = i then true else st.expired j)
        else st.expired
      let remaining' := if finished then st.remaining - 1 else st.remaining
      match drainBuffer st.witness buf with
      | .error e => (.error e, [(i, finished)])
      | .ok (w', newReps) =>
        let enq := newReps.flatMap (fun r =>
          ((assocLookup watchIdx r).getD []).filter (fun j => !(expired' j)))
        (.ok (⟨w', expired', remaining'⟩, next ++ enq), [(i, finished)])

/-- One round of the `while` loop (`generator.rs:58-87`): process the
pending indices in order, threading the state and the `next` queue and
concatenating the invocation logs. -/
def runRound {F : Type} [DecidableEq F]
    (gens : List (WitnessGenerator F)) (watchIdx : List (Target × List Nat)) :
    List Nat → RoundState F → List Nat →
    Except GenErr (RoundState F × List Nat) × List (Nat × Bool)
  | [], st, next => (.ok (st, next), [])
  | i :: rest, st, next =>
    match stepGenerator gens watchIdx st next i with
    | (.error e, log) => (.error e, log)
    | (.ok (st', next'), log) =>
      let res := runRound gens watchIdx rest st' next'
      (res.1, log ++ res.2)

/-- The `while !pending_generator_indices.is_empty()` loop
(`generator.rs:55-90`), with an explicit fuel bounding the number of
rounds: `none` means the fuel ran out before the queue emptied.  Each
round starts with an empty `next` queue. -/
def loopGen {F : Type} [DecidableEq F]
    (gens : List (WitnessGenerator F)) (watchIdx : List (Target × List Nat)) :
    Nat → List Nat → RoundState F →
    Option (Except GenErr (RoundState F)) × List (Nat × Bool)
  | _, [], st => (some (.ok st), [])
  | 0, _ :: _, _ => (none, [])
  | fuel + 1, i :: rest, st =>
    match runRound gens watchIdx (i :: rest) st [] with
    | (.error e, log) => (some (.error e), log)
    | (.ok (st', next), log) =>
      let res := loopGen gens watchIdx fuel next st'
      (res.1, log ++ res.2)

/-- Writing the input values into the fresh witness
(`generator.rs:40-42`). -/
def setManyTargets {F : Type} [DecidableEq F] :
    PartitionWitness F → List (Target × F) → Except GenErr (PartitionWitness F)
  | w, [] => .ok w
  | w, (t, v) :: rest =>
    match w.setTarget t v with
    | .error e => .error e
    | .ok w' => setManyTargets w' rest

/-- `generate_partial_witness` (`generator.rs:20-99`): write the inputs,
queue every generator, run the fixed-point loop, and finally check
`remaining_generators == 0` — the source's `assert_eq!` carries only the
count in its message, modelled as the `stalled` error.  The first
component is `none` when the fuel ran out; the second is the ghost
invocation log. -/
def generatePartialWitness {F : Type} [DecidableEq F] (fuel : Nat)
    (inputs : List (Target × F)) (gens : List (WitnessGenerator F))
    (watchIdx : List (Target × List Nat)) (rm : Target → Target) :
    Option (Except GenErr (PartitionWitness F)) × List (Nat × Bool) :=
  match setManyTargets ⟨rm, []⟩ inputs with
  | .error e => (some (.error e), [])
  | .ok w0 =>
    let st0 : RoundState F := ⟨w0, fun _ => false, gens.length⟩
    let res := loopGen gens watchIdx fuel (List.range gens.length) st0
    (res.1.map (fun r => r.bind (fun st =>
       if st.remaining = 0 then .ok st.witness
       else .error (.stalled st.remaining))), res.2)

/-- A simple generator (trait `SimpleGenerator`, `generator.rs:210-232`):
an id, a dependency list, and `run_once`, modelled as returning the pairs
it appends to the output buffer. -/
structure SimpleGenerator (F : Type) where
  id : String
  dependencies : List Target
  runOnce : PartitionWitness F → List (Target × F)

/-- `SimpleGeneratorAdapter` as a `WitnessGenerator`
(`generator.rs:240-256`): `watch_list` is the inner `dependencies`; `run`
calls `run_once` and returns `true` exactly when `contains_all` holds of
the dependencies, and otherwise returns `false` leaving the buffer
untouched. -/
def SimpleGenerator.adapter {F : Type} [DecidableEq F]
    (sg : SimpleGenerator F) : WitnessGenerator F where
  id := sg.id
  watchList := sg.dependencies
  run := fun w =>
    if w.containsAll sg.dependencies then (true, sg.runOnce w)
    else (false, [])

/-- `CopyGenerator` (`generator.rs:271-275`). -/
structure CopyGenerator where
  src : Target
  dst : Target
deriving DecidableEq

/-- `CopyGenerator::dependencies` (`generator.rs:282-284`). -/
def CopyGenerator.dependencies (g : CopyGenerator) : List Target :=
  [g.src]

/-- `CopyGenerator::run_once` (`generator.rs:286-289`). -/
def CopyGenerator.runOnce {F : Type} [DecidableEq F] [Zero F]
    (g : CopyGenerator) (w : PartitionWitness F) : List (Target × F) :=
  [(g.dst, w.getTarget g.src)]

/-- `RandomValueGenerator` (`generator.rs:304-307`). -/
structure RandomValueGenerator where
  target : Target
deriving DecidableEq

/-- `RandomValueGenerator::dependencies` (`generator.rs:314-316`). -/
def RandomValueGenerator.dependencies (_g : RandomValueGenerator) : List Target :=
  []

/-- `NonzeroTestGenerator` (`generator.rs:334-338`). -/
structure NonzeroTestGenerator where
  toTest : Target
  dummy : Target
deriving DecidableEq

/-- `NonzeroTestGenerator::dependencies` (`generator.rs:345-347`). -/
def NonzeroTestGenerator.dependencies (g : NonzeroTestGenerator) : List Target :=
  [g.toTest]

/-- `NonzeroTestGenerator::run_once` (`generator.rs:349-359`): read
`to_test`, write to `dummy` the value one when it is zero and its
multiplicative inverse otherwise. -/
def NonzeroTestGenerator.runOnce {F : Type} [Field F] [DecidableEq F]
    (g : NonzeroTestGenerator) (w : PartitionWitness F) : List (Target × F) :=
  let toTestValue := w.getTarget g.toTest
  let dummyValue : F := if toTestValue = 0 then 1 else toTestValue⁻¹
  [(g.dummy, dummyValue)]

/-- `ConstantGenerator` (`generator.rs:374-380`). -/
structure ConstantGenerator (F : Type) where
  row : Nat
  constantIndex : Nat
  wireIndex : Nat
  constant : F
deriving DecidableEq

/-- `ConstantGenerator::run_once` (`generator.rs:397-399`). -/
def ConstantGenerator.runOnce {F : Type} (g : ConstantGenerator F)
    (_w : PartitionWitness F) : List (Target × F) :=
  [(Target.wireAt g.row g.wireIndex, g.constant)]

/-!  Serialization.  The byte-buffer primitives (`write_target`,
`read_target`, `write_usize`, `read_usize`, `write_field`, `read_field`
of `util/serialization.rs`) are not under `src/`; per spec §4.6 a payload
is a fixed-order sequence of fields, so the buffer is modelled as a list
of typed tokens and each primitive writes or reads one token. -/

/-- Modelled from the spec: one serialized field of a generator payload
(a target, a usize, or a field element). -/
inductive SerialData (F : Type) where
  | targetTok (t : Target)
  | usizeTok (n : Nat)
  | fieldTok (v : F)
deriving DecidableEq

/-- Modelled from the spec: `write_target` appends one target token. -/
def writeTarget {F : Type} (buf : List (SerialData F)) (t : Target) :
    List (SerialData F) :=
  buf ++ [.targetTok t]

/-- Modelled from the spec: `read_target` consumes one target token,
failing (`MalformedPayload`) on anything else. -/
def readTarget {F : Type} :
    List (SerialData F) → Option (Target × List (SerialData F))
  | .targetTok t :: rest => some (t, rest)
  | _ => none

/-- Modelled from the spec: `write_usize` appends one usize token. -/
def writeUsize {F : Type} (buf : List (SerialData F)) (n : Nat) :
    List (SerialData F) :=
  buf ++ [.usizeTok n]

/-- Modelled from the spec: `read_usize` consumes one usize token. -/
def readUsize {F : Type} :
    List (SerialData F) → Option (Nat × List (SerialData F))
  | .usizeTok n :: rest => some (n, rest)
  | _ => none

/-- Modelled from the spec: `write_field` appends one field token. -/
def writeField {F : Type} (buf : List (SerialData F)) (v : F) :
    List (SerialData F) :=
  buf ++ [.fieldTok v]

/-- Modelled from the spec: `read_field` consumes one field token. -/
def readField {F : Type} :
    List (SerialData F) → Option (F × List (SerialData F))
  | .fieldTok v :: rest => some (v, rest)
  | _ => none

/-- `CopyGenerator::serialize` (`generator.rs:291-294`): write `src` then
`dst`. -/
def CopyGenerator.serializeGen {F : Type} (g : CopyGenerator)
    (dst : List (SerialData F)) : List (SerialData F) :=
  writeTarget (writeTarget dst g.src) g.dst

/-- `CopyGenerator::deserialize` (`generator.rs:296-300`). -/
def CopyGenerator.deserializeGen {F : Type} (source : List (SerialData F)) :
    Option (CopyGenerator × List (SerialData F)) := do
  let (src, source) ← readTarget source
  let (dst, source) ← readTarget source
  pure (⟨src, dst⟩, source)

/-- `RandomValueGenerator::serialize` (`generator.rs:323-325`). -/
def RandomValueGenerator.serializeGen {F : Type} (g : RandomValueGenerator)
    (dst : List (SerialData F)) : List (SerialData F) :=
  writeTarget dst g.target

/-- `RandomValueGenerator::deserialize` (`generator.rs:327-330`). -/
def RandomValueGenerator.deserializeGen {F : Type} (src : List (SerialData F)) :
    Option (RandomValueGenerator × List (SerialData F)) := do
  let (target, src) ← readTarget src
  pure (⟨target⟩, src)

/-- `NonzeroTestGenerator::serialize` (`generator.rs:361-364`): write
`to_test` then `dummy`. -/
def NonzeroTestGenerator.serializeGen {F : Type} (g : NonzeroTestGenerator)
    (dst : List (SerialData F)) : List (SerialData F) :=
  writeTarget (writeTarget dst g.toTest) g.dummy

/-- `NonzeroTestGenerator::deserialize` (`generator.rs:366-370`). -/
def NonzeroTestGenerator.deserializeGen {F : Type} (src : List (SerialData F)) :
    Option (NonzeroTestGenerator × List (SerialData F)) := do
  let (toTest, src) ← readTarget src
  let (dummy, src) ← readTarget src
  pure (⟨toTest, dummy⟩, src)

/-- `ConstantGenerator::serialize` (`generator.rs:401-406`): write `row`,
`constant_index`, `wire_index`, then the field constant. -/
def ConstantGenerator.serializeGen {F : Type} (g : ConstantGenerator F)
    (dst : List (SerialData F)) : List (SerialData F) :=
  writeField (writeUsize (writeUsize (writeUsize dst g.row) g.constantIndex) g.wireIndex) g.constant

/-- `ConstantGenerator::deserialize` (`generator.rs:408-419`). -/
def ConstantGenerator.deserializeGen {F : Type} (src : List (SerialData F)) :
    Option (ConstantGenerator F × List (SerialData F)) := do
  let (row, src) ← readUsize src
  let (constantIndex, src) ← readUsize src
  let (wireIndex, src) ← readUsize src
  let (constant, src) ← readField src
  pure (⟨row, constantIndex, wireIndex, constant⟩, src)

/-!  The simulated VM memory model of `src/evm/src/witness/memory.rs`.
256-bit `U256` values are only stored and compared here (no arithmetic),
so they are modelled as `Nat`.  The channel constants of `cpu/membus.rs`
and the `Segment` enum of `memory/segments.rs` are not under `src/`, so
per spec §6 the number of general-purpose channels and the number of
segment kinds are parameters, with `NUM_CHANNELS = NUM_GP_CHANNELS + 1`
(spec: `NUM_GP_CHANNELS = NUM_CHANNELS − 1`). -/

/-- `MemoryChannel` (`memory.rs:5-9`): `Code` or `GeneralPurpose(n)`. -/
inductive MemoryChannel where
  | code
  | generalPurpose (n : Nat)
deriving DecidableEq

/-- `MemoryChannel::index` (`memory.rs:16-26`): `Code → 0`,
`GeneralPurpose(n) → n + 1`.  The source asserts `n < NUM_GP_CHANNELS`;
well-formedness is the `wellFormed` predicate below. -/
def MemoryChannel.index : MemoryChannel → Nat
  | .code => 0
  | .generalPurpose n => n + 1

/-- The assertion `n < NUM_GP_CHANNELS` guarding `MemoryChannel::index`
(`memory.rs:21`), with the channel count as a parameter. -/
def MemoryChannel.wellFormed (numGpChannels : Nat) : MemoryChannel → Prop
  | .code => True
  | .generalPurpose n => n < numGpChannels

/-- `MemoryAddress` (`memory.rs:28-33`). -/
structure MemoryAddress where
  context : Nat
  segment : Nat
  virt : Nat
deriving DecidableEq

/-- `MemoryOpKind` (`memory.rs:53-57`). -/
inductive MemoryOpKind where
  | read
  | write
deriving DecidableEq

/-- `MemoryOp` (`memory.rs:59-67`): `filter = false` denotes a padding
row. -/
structure MemoryOp where
  filter : Bool
  timestamp : Nat
  address : MemoryAddress
  kind : MemoryOpKind
  value : Nat
deriving DecidableEq

/-- `MemoryOp::new` (`memory.rs:69-86`): `filter` is always `true` and
`timestamp = clock * NUM_CHANNELS + channel.index()`, with
`NUM_CHANNELS = numGpChannels + 1`. -/
def MemoryOp.new (numGpChannels : Nat) (channel : MemoryChannel)
    (clock : Nat) (address : MemoryAddress) (kind : MemoryOpKind)
    (value : Nat) : MemoryOp :=
  { filter := true
    timestamp := clock * (numGpChannels + 1) + channel.index
    address := address
    kind := kind
    value := value }

/-- `MemorySegmentState` (`memory.rs:139-142`): a growable sequence of
256-bit words. -/
structure MemorySegmentState where
  content : List Nat
deriving DecidableEq

/-- `MemorySegmentState::get` (`memory.rs:145-150`): out-of-range reads
return zero. -/
def MemorySegmentState.get (s : MemorySegmentState) (virtualAddr : Nat) : Nat :=
  (s.content.get? virtualAddr).getD 0

/-- `MemorySegmentState::set` (`memory.rs:152-157`): when the address is
out of range, first resize the content to `virtualAddr + 1` with zero
padding, then store the value. -/
def MemorySegmentState.set (s : MemorySegmentState) (virtualAddr : Nat)
    (value : Nat) : MemorySegmentState :=
  ⟨(if s.content.length ≤ virtualAddr
    then s.content ++ List.replicate (virtualAddr + 1 - s.content.length) 0
    else s.content).set virtualAddr value⟩

/-- `MemoryContextState` (`memory.rs:133-137`): one segment state per
segment kind. -/
structure MemoryContextState where
  segments : List MemorySegmentState
deriving DecidableEq

/-- Modelled from the spec: the default `MemoryContextState` holds
`Segment::COUNT` empty segments; the segment count is a parameter because
`memory/segments.rs` is not under `src/`. -/
def MemoryContextState.defaultState (segmentCount : Nat) : MemoryContextState :=
  ⟨List.replicate segmentCount ⟨[]⟩⟩

/-- `MemoryState` (`memory.rs:88-91`). -/
structure MemoryState where
  contexts : List MemoryContextState
deriving DecidableEq

/-- `MemoryState::default` (`memory.rs:124-131`): a single initial kernel
context. -/
def MemoryState.defaultState (segmentCount : Nat) : MemoryState :=
  ⟨[MemoryContextState.defaultState segmentCount]⟩

/-- In-place update of one list element, leaving the list unchanged when
the index is out of range (Rust's indexed assignment panics there; the
theorems about `MemoryState` carry in-range hypotheses). -/
def listModify {α : Type} (f : α → α) : Nat → List α → List α
  | _, [] => []
  | 0, x :: xs => f x :: xs
  | n + 1, x :: xs => x :: listModify f n xs

/-- `MemoryState::get` (`memory.rs:115-117`):
`contexts[context].segments[segment].get(virt)`. -/
def MemoryState.get (m : MemoryState) (a : MemoryAddress) : Nat :=
  (((m.contexts.get? a.context).getD ⟨[]⟩).segments.get? a.segment).getD ⟨[]⟩
    |>.get a.virt

/-- `MemoryState::set` (`memory.rs:119-121`):
`contexts[context].segments[segment].set(virt, val)`. -/
def MemoryState.set (m : MemoryState) (a : MemoryAddress) (val : Nat) :
    MemoryState :=
  ⟨listModify
    (fun c => ⟨listModify (fun s => s.set a.virt val) a.segment c.segments⟩)
    a.context m.contexts⟩

/-- One iteration of `MemoryState::apply_ops` (`memory.rs:101-113`): a
write-kind op stores its value at its address; a read-kind op leaves the
state unchanged. -/
def MemoryState.applyOp (m : MemoryState) (op : MemoryOp) : MemoryState :=
  if op.kind = MemoryOpKind.write then m.set op.address op.value else m

/-- `MemoryState::apply_ops` (`memory.rs:101-113`). -/
def MemoryState.applyOps (m : MemoryState) (ops : List MemoryOp) : MemoryState :=
  ops.foldl MemoryState.applyOp m

/-!  Predicates used to state the runtime claims. -/

/-- The generators only ever populate representatives drawn from the
finite list `allT`: every pair a generator can emit has its
representative in `allT`, for every witness carrying the run's
representative map.  In the source this holds with `allT` the (finite)
domain of the `representative_map` of the `PartitionWitness`. -/
def EmitsInto {F : Type} (gens : List (WitnessGenerator F))
    (rm : Target → Target) (allT : List Target) : Prop :=
  ∀ g ∈ gens, ∀ w : PartitionWitness F, w.repMap = rm →
    ∀ p ∈ (g.run w).2, rm p.1 ∈ allT

/-- Invariant of the witness along a run: the representative map is the
run's, the populated representatives are pairwise distinct, and all of
them lie in `allT`. -/
def ValsInv {F : Type} (rm : Target → Target) (allT : List Target)
    (w : PartitionWitness F) : Prop :=
  w.repMap = rm ∧ (w.vals.map Prod.fst).Nodup ∧
    ∀ k ∈ w.vals.map Prod.fst, k ∈ allT

/-- No entry of the invocation log mentions an index that was already
expired when the logged section started. -/
def AvoidsExpired (expired : Nat → Bool) (log : List (Nat × Bool)) : Prop :=
  ∀ i b, expired i = true → (i, b) ∉ log

/-- Once an invocation of generator `i` returns `true`, no later entry of
the log invokes `i` again. -/
def NoReRun (log : List (Nat × Bool)) : Prop :=
  ∀ i l1 l2, log = l1 ++ (i, true) :: l2 → ∀ b, (i, b) ∉ l2

/-!  Concrete configurations used by the witness theorems. -/

/-- The identity representative map (every target is its own class). -/
def idRep : Target → Target := fun t => t

/-- Shorthand for a virtual target. -/
def vt (n : Nat) : Target := Target.virtualTarget n

/-- A simple generator with one dependency writing the constant 7. -/
def exSimpleGen : SimpleGenerator Nat :=
  ⟨"ExampleSimple", [vt 0], fun _ => [(vt 1, 7)]⟩

/-- A witness populating `vt 0`. -/
def exWitnessFull : PartitionWitness Nat := ⟨idRep, [(vt 0, 7)]⟩

/-- The empty witness over `Nat`. -/
def exWitnessEmpty : PartitionWitness Nat := ⟨idRep, []⟩

/-- A dependency-free generator that retires on its first run after
emitting one value. -/
def exFinishGenA : WitnessGenerator Nat :=
  ⟨"GenA", [], fun _ => (true, [(vt 0, 5)])⟩

/-- A dependency-free generator that retires without emitting. -/
def exFinishGenB : WitnessGenerator Nat :=
  ⟨"GenB", [], fun _ => (true, [])⟩

/-- A generator that is never satisfied (an adapter over a copy generator
whose source is never populated), with the copy generator's id. -/
def exStallCopyGen : WitnessGenerator Nat :=
  ⟨"CopyGenerator", [vt 0], fun _ => (false, [])⟩

/-- The same stalled behaviour under a different generator id. -/
def exStallOtherGen : WitnessGenerator Nat :=
  ⟨"AnotherGenerator", [vt 0], fun _ => (false, [])⟩

/-- A nonzero-test generator on `vt 0` with dummy `vt 1`. -/
def exNzGen : NonzeroTestGenerator := ⟨vt 0, vt 1⟩

/-- A rational witness storing 2 at `vt 0`. -/
def exRatWitnessTwo : PartitionWitness ℚ := ⟨idRep, [(vt 0, 2)]⟩

/-- A rational witness storing 0 at `vt 0`. -/
def exRatWitnessZero : PartitionWitness ℚ := ⟨idRep, [(vt 0, 0)]⟩

/-- A concrete memory address. -/
def exAddr : MemoryAddress := ⟨0, 0, 0⟩

/-!  ## Theorems -/

/-- The channel index is below `NUM_CHANNELS = numGpChannels + 1` for
well-formed channels. -/
theorem MemoryChannel.index_lt (numGpChannels : Nat) (c : MemoryChannel)
    (h : c.wellFormed numGpChannels) : c.index < numGpChannels + 1 := by
  cases c with
  | code => exact Nat.succ_pos _
  | generalPurpose n =>
    exact Nat.succ_lt_succ (by simpa [MemoryChannel.wellFormed] using h)

/-- C3: For every `SimpleGenerator` wrapped by `SimpleGeneratorAdapter`
and every witness state, the adapter's `watch_list` equals the inner
generator's `dependencies`; when `contains_all` holds of the dependencies
`run` returns `true` with exactly the output of one `run_once`
invocation, and otherwise `run` returns `false` without running
`run_once` or writing to the output buffer. -/
theorem simpleGeneratorAdapter_spec {F : Type} [DecidableEq F]
    (sg : SimpleGenerator F) (w : PartitionWitness F) :
    sg.adapter.watchList = sg.dependencies ∧
    (w.containsAll sg.dependencies = true →
      sg.adapter.run w = (true, sg.runOnce w)) ∧
    (w.containsAll sg.dependencies = false →
      sg.adapter.run w = (false, [])) := by
  refine ⟨rfl, ?_, ?_⟩ <;> intro h <;> simp [SimpleGenerator.adapter, h]

/-- Witness for C3: with the dependency populated the adapter fires and
retires; with it absent the adapter declines and writes nothing. -/
theorem simpleGeneratorAdapter_spec_witness :
    exSimpleGen.adapter.run exWitnessFull = (true, [(vt 1, 7)]) ∧
    exSimpleGen.adapter.run exWitnessEmpty = (false, []) :=
  ⟨(simpleGeneratorAdapter_spec exSimpleGen exWitnessFull).2.1 rfl,
   (simpleGeneratorAdapter_spec exSimpleGen exWitnessEmpty).2.2 rfl⟩

/-- C5: on a witness populating `to_test` with `v`, the nonzero-test
generator writes exactly one pair: the dummy target receives one when
`v = 0` and `v⁻¹` otherwise; its dependency list is exactly
`[to_test]`. -/
theorem nonzeroTestGenerator_runOnce_spec {F : Type} [Field F] [DecidableEq F]
    (g : NonzeroTestGenerator) (w : PartitionWitness F) (v : F)
    (h : w.tryGetTarget g.toTest = some v) :
    g.runOnce w = [(g.dummy, if v = 0 then 1 else v⁻¹)] ∧
    g.dependencies = [g.toTest] := by
  refine ⟨?_, rfl⟩
  simp [NonzeroTestGenerator.runOnce, PartitionWitness.getTarget, h]

/-- Witness for C5: over `ℚ`, with 2 stored at `to_test` the dummy
receives `2⁻¹`, and with 0 stored it receives 1. -/
theorem nonzeroTestGenerator_runOnce_spec_witness :
    exRatWitnessTwo.tryGetTarget (vt 0) = some 2 ∧
    exNzGen.runOnce exRatWitnessTwo = [(vt 1, (2 : ℚ)⁻¹)] ∧
    exNzGen.runOnce exRatWitnessZero = [(vt 1, (1 : ℚ))] := by
  refine ⟨rfl, ?_, ?_⟩
  · have h := (nonzeroTestGenerator_runOnce_spec exNzGen exRatWitnessTwo 2 rfl).1
    rw [h]
    norm_num [exNzGen]
  · have h := (nonzeroTestGenerator_runOnce_spec exNzGen exRatWitnessZero 0 rfl).1
    rw [h]
    norm_num [exNzGen]

/-- C9: deserializing the serialization of each supported primitive
generator (copy, random-value, nonzero-test, constant) returns the very
same generator with the buffer fully consumed. -/
theorem generator_serialization_roundtrip {F : Type} (cg : CopyGenerator)
    (rg : RandomValueGenerator) (ng : NonzeroTestGenerator)
    (kg : ConstantGenerator F) :
    CopyGenerator.deserializeGen (cg.serializeGen ([] : List (SerialData F)))
      = some (cg, []) ∧
    RandomValueGenerator.deserializeGen
      (rg.serializeGen ([] : List (SerialData F))) = some (rg, []) ∧
    NonzeroTestGenerator.deserializeGen
      (ng.serializeGen ([] : List (SerialData F))) = some (ng, []) ∧
    ConstantGenerator.deserializeGen (kg.serializeGen []) = some (kg, []) :=
  ⟨rfl, rfl, rfl, rfl⟩

/-- C10: every op built by `MemoryOp::new` has `filter = true`; a padding
row can never come out of the public constructor. -/
theorem memoryOp_new_filter_true (numGpChannels : Nat)
    (channel : MemoryChannel) (clock : Nat) (address : MemoryAddress)
    (kind : MemoryOpKind) (value : Nat) :
    (MemoryOp.new numGpChannels channel clock address kind value).filter
      = true := rfl

/-- C6: `MemoryOp::new` computes
`timestamp = clock * NUM_CHANNELS + channel.index()`; over well-formed
channels the timestamps are strictly ordered lexicographically in
`(clock, channel index)` and injective on those pairs. -/
theorem memoryOp_timestamp_spec (numGpChannels : Nat)
    (c1 c2 : MemoryChannel) (clock1 clock2 : Nat) (a1 a2 : MemoryAddress)
    (k1 k2 : MemoryOpKind) (v1 v2 : Nat)
    (h1 : c1.wellFormed numGpChannels) (h2 : c2.wellFormed numGpChannels) :
    (MemoryOp.new numGpChannels c1 clock1 a1 k1 v1).timestamp
      = clock1 * (numGpChannels + 1) + c1.index ∧
    ((clock1 < clock2 ∨ (clock1 = clock2 ∧ c1.index < c2.index)) →
      (MemoryOp.new numGpChannels c1 clock1 a1 k1 v1).timestamp <
        (MemoryOp.new numGpChannels c2 clock2 a2 k2 v2).timestamp) ∧
    ((MemoryOp.new numGpChannels c1 clock1 a1 k1 v1).timestamp =
        (MemoryOp.new numGpChannels c2 clock2 a2 k2 v2).timestamp →
      clock1 = clock2 ∧ c1.index = c2.index) := by
  have hi1 := MemoryChannel.index_lt numGpChannels c1 h1
  have hi2 := MemoryChannel.index_lt numGpChannels c2 h2
  set C := numGpChannels + 1 with hC
  refine ⟨rfl, ?_, ?_⟩
  · rintro (hlt | ⟨rfl, hidx⟩)
    · show clock1 * C + c1.index < clock2 * C + c2.index
      calc clock1 * C + c1.index < clock1 * C + C := by omega
        _ = (clock1 + 1) * C := by ring
        _ ≤ clock2 * C := Nat.mul_le_mul_right C hlt
        _ ≤ clock2 * C + c2.index := Nat.le_add_right _ _
    · show clock1 * C + c1.index < clock1 * C + c2.index
      omega
  · intro hts
    have hts' : clock1 * C + c1.index = clock2 * C + c2.index := hts
    have hq1 : (clock1 * C + c1.index) / C = clock1 := by
      rw [Nat.mul_comm clock1 C, Nat.mul_add_div (by omega),
        Nat.div_eq_of_lt hi1, Nat.add_zero]
    have hq2 : (clock2 * C + c2.index) / C = clock2 := by
      rw [Nat.mul_comm clock2 C, Nat.mul_add_div (by omega),
        Nat.div_eq_of_lt hi2, Nat.add_zero]
    have hclock : clock1 = clock2 := by rw [← hq1, ← hq2, hts']
    refine ⟨hclock, ?_⟩
    subst hclock
    omega

/-- Witness for C6: with three general-purpose channels, a code-channel
op at clock 0 precedes a first-general-purpose-channel op at clock 0. -/
theorem memoryOp_timestamp_spec_witness :
    (MemoryOp.new 3 MemoryChannel.code 0 exAddr MemoryOpKind.read 0).timestamp
      = 0 * (3 + 1) + MemoryChannel.code.index ∧
    (MemoryOp.new 3 MemoryChannel.code 0 exAddr MemoryOpKind.read 0).timestamp <
      (MemoryOp.new 3 (MemoryChannel.generalPurpose 0) 0 exAddr
        MemoryOpKind.write 42).timestamp :=
  ⟨(memoryOp_timestamp_spec 3 MemoryChannel.code MemoryChannel.code 0 0 exAddr
      exAddr MemoryOpKind.read MemoryOpKind.read 0 0 trivial trivial).1,
   (memoryOp_timestamp_spec 3 MemoryChannel.code (MemoryChannel.generalPurpose 0)
      0 0 exAddr exAddr MemoryOpKind.read MemoryOpKind.write 0 42 trivial
      (by simp [MemoryChannel.wellFormed])).2.1
     (Or.inr ⟨rfl, by simp [MemoryChannel.index]⟩)⟩

/-- `apply_ops` equals folding `set` over the write-kind ops only. -/
theorem applyOps_eq_foldl_writes (m : MemoryState) (ops : List MemoryOp) :
    m.applyOps ops =
      (ops.filter (fun op => decide (op.kind = MemoryOpKind.write))).foldl
        (fun s op => s.set op.address op.value) m := by
  induction ops generalizing m with
  | nil => rfl
  | cons op rest ih =>
    by_cases hk : op.kind = MemoryOpKind.write
    · simp [MemoryState.applyOps, MemoryState.applyOp, hk, List.filter_cons,
        List.foldl_cons] at ih ⊢
      exact ih _
    · simp [MemoryState.applyOps, MemoryState.applyOp, hk, List.filter_cons,
        List.foldl_cons] at ih ⊢
      exact ih _

/-- C8: `apply_ops` applies exactly the write-kind ops, via `set` at the
op's address with the op's value in list order; read-kind ops leave the
state unchanged, so a list of only read-kind ops is a no-op. -/
theorem applyOps_writes_only (m : MemoryState) (ops : List MemoryOp) :
    m.applyOps ops =
      (ops.filter (fun op => decide (op.kind = MemoryOpKind.write))).foldl
        (fun s op => s.set op.address op.value) m ∧
    ((∀ op ∈ ops, op.kind = MemoryOpKind.read) → m.applyOps ops = m) := by
  refine ⟨applyOps_eq_foldl_writes m ops, fun hall => ?_⟩
  rw [applyOps_eq_foldl_writes m ops]
  have hnil : ops.filter (fun op => decide (op.kind = MemoryOpKind.write)) = [] := by
    rw [List.filter_eq_nil_iff]
    intro op hop
    simp [hall op hop]
  rw [hnil]
  rfl

/-- Witness for C8: a two-read list leaves a concrete state unchanged. -/
theorem applyOps_writes_only_witness :
    (MemoryState.defaultState 2).applyOps
      [MemoryOp.new 3 MemoryChannel.code 0 exAddr MemoryOpKind.read 0,
       MemoryOp.new 3 MemoryChannel.code 1 exAddr MemoryOpKind.read 7]
      = MemoryState.defaultState 2 :=
  (applyOps_writes_only (MemoryState.defaultState 2) _).2 (by decide)

/-- `listModify` leaves every index except the modified one unchanged and
applies `f` at the modified index. -/
theorem listModify_getElem? {α : Type} (f : α → α) (n m : Nat) (l : List α) :
    (listModify f n l)[m]? = if m = n then l[m]?.map f else l[m]? := by
  induction l generalizing n m with
  | nil => cases n <;> simp [listModify]
  | cons x xs ih =>
    cases n with
    | zero =>
      cases m with
      | zero => simp [listModify]
      | succ m => simp [listModify]
    | succ n =>
      cases m with
      | zero => simp [listModify]
      | succ m => simpa [listModify] using ih n m

/-- `listModify` preserves the length. -/
theorem listModify_length {α : Type} (f : α → α) (n : Nat) (l : List α) :
    (listModify f n l).length = l.length := by
  induction l generalizing n with
  | nil => cases n <;> rfl
  | cons x xs ih =>
    cases n with
    | zero => simp [listModify]
    | succ n => simpa [listModify] using ih n

/-- Every member of `listModify f n l` is a member of `l` or the image
under `f` of a member of `l`. -/
theorem listModify_mem {α : Type} (f : α → α) (n : Nat) (l : List α) (x : α)
    (hx : x ∈ listModify f n l) : x ∈ l ∨ ∃ y ∈ l, x = f y := by
  induction l generalizing n with
  | nil => cases n <;> simp [listModify] at hx
  | cons z zs ih =>
    cases n with
    | zero =>
      rcases List.mem_cons.mp hx with h | h
      · exact Or.inr ⟨z, List.mem_cons_self _ _, h⟩
      · exact Or.inl (List.mem_cons_of_mem _ h)
    | succ n =>
      rcases List.mem_cons.mp hx with h | h
      · exact Or.inl (h ▸ List.mem_cons_self _ _)
      · rcases ih n h with h' | ⟨y, hy, hxy⟩
        · exact Or.inl (List.mem_cons_of_mem _ h')
        · exact Or.inr ⟨y, List.mem_cons_of_mem _ hy, hxy⟩

/-- Reading back any address after a segment `set`: the written address
holds the value, every other address reads as before (the zero padding
added by an out-of-range write is indistinguishable from the zero default
of an out-of-range read). -/
theorem memorySegment_get_set (s : MemorySegmentState) (virt virt' v : Nat) :
    (s.set virt v).get virt' = if virt' = virt then v else s.get virt' := by
  unfold MemorySegmentState.set MemorySegmentState.get
  dsimp only
  simp only [List.get?_eq_getElem?]
  by_cases hv : virt' = virt
  · subst hv
    rw [if_pos rfl]
    by_cases hle : s.content.length ≤ virt'
    · rw [if_pos hle, List.getElem?_set, if_pos rfl,
        if_pos (by rw [List.length_append, List.length_replicate]; omega)]
      rfl
    · rw [if_neg hle, List.getElem?_set, if_pos rfl, if_pos (by omega)]
      rfl
  · rw [if_neg hv]
    by_cases hle : s.content.length ≤ virt
    · rw [if_pos hle, List.getElem?_set, if_neg (fun h => hv h.symm)]
      by_cases hlt : virt' < s.content.length
      · rw [List.getElem?_append_left hlt]
      · rw [List.getElem?_append_right (by omega), List.getElem?_replicate,
          List.getElem?_eq_none (by omega)]
        by_cases h2 : virt' - s.content.length < virt + 1 - s.content.length
        · rw [if_pos h2]
          rfl
        · rw [if_neg h2]
    · rw [if_neg hle, List.getElem?_set, if_neg (fun h => hv h.symm)]

/-- A `MemoryState.set` at one address does not change the value read at
any other address. -/
theorem memoryState_get_set_ne (m : MemoryState) (a b : MemoryAddress)
    (v : Nat) (hne : a ≠ b) : (m.set b v).get a = m.get a := by
  unfold MemoryState.get MemoryState.set
  dsimp only
  simp only [List.get?_eq_getElem?, listModify_getElem?]
  by_cases h1 : a.context = b.context
  · rw [if_pos h1]
    cases hc : m.contexts[a.context]? with
    | none => simp
    | some c =>
      simp only [Option.map_some', Option.getD_some]
      simp only [listModify_getElem?]
      by_cases h2 : a.segment = b.segment
      · rw [if_pos h2]
        cases hs : c.segments[a.segment]? with
        | none => simp
        | some seg =>
          simp only [Option.map_some', Option.getD_some]
          have h3 : a.virt ≠ b.virt := by
            intro h3
            exact hne (by cases a; cases b; simp_all)
          rw [memorySegment_get_set, if_neg h3]
      · rw [if_neg h2]
  · rw [if_neg h1]

/-- A `MemoryState.set` at an in-range address is read back by `get`. -/
theorem memoryState_get_set_self (m : MemoryState) (a : MemoryAddress)
    (v : Nat) (hc : a.context < m.contexts.length)
    (hs : ∀ c ∈ m.contexts, a.segment < c.segments.length) :
    (m.set a v).get a = v := by
  unfold MemoryState.get MemoryState.set
  dsimp only
  simp only [List.get?_eq_getElem?, listModify_getElem?, eq_self_iff_true,
    if_true]
  cases hcg : m.contexts[a.context]? with
  | none =>
    have := List.getElem?_eq_none_iff.mp hcg
    omega
  | some c =>
    have hcmem : c ∈ m.contexts := List.getElem?_mem hcg
    simp only [if_true, Option.map_some', Option.getD_some]
    simp only [listModify_getElem?, eq_self_iff_true, if_true]
    cases hsg : c.segments[a.segment]? with
    | none =>
      have := List.getElem?_eq_none_iff.mp hsg
      have := hs c hcmem
      omega
    | some seg =>
      simp only [Option.map_some', Option.getD_some]
      rw [memorySegment_get_set, if_pos rfl]

/-- `applyOp` preserves the number of contexts and the per-context
segment counts. -/
theorem applyOp_shape (m : MemoryState) (op : MemoryOp) (segCount : Nat)
    (hlen : m.contexts.length = 1)
    (hshape : ∀ c ∈ m.contexts, c.segments.length = segCount) :
    (m.applyOp op).contexts.length = 1 ∧
      ∀ c ∈ (m.applyOp op).contexts, c.segments.length = segCount := by
  unfold MemoryState.applyOp
  by_cases hk : op.kind = MemoryOpKind.write
  · rw [if_pos hk]
    unfold MemoryState.set
    refine ⟨by rw [listModify_length]; exact hlen, ?_⟩
    intro c hcmem
    rcases listModify_mem _ _ _ _ hcmem with h | ⟨y, hy, hxy⟩
    · exact hshape c h
    · subst hxy
      dsimp only
      rw [listModify_length]
      exact hshape y hy
  · rw [if_neg hk]
    exact ⟨hlen, hshape⟩

/-- `applyOps` preserves the shape of the state. -/
theorem applyOps_shape (m : MemoryState) (ops : List MemoryOp)
    (segCount : Nat) (hlen : m.contexts.length = 1)
    (hshape : ∀ c ∈ m.contexts, c.segments.length = segCount) :
    (m.applyOps ops).contexts.length = 1 ∧
      ∀ c ∈ (m.applyOps ops).contexts, c.segments.length = segCount := by
  induction ops generalizing m with
  | nil => exact ⟨hlen, hshape⟩
  | cons op rest ih =>
    have h := applyOp_shape m op segCount hlen hshape
    exact ih (m.applyOp op) h.1 h.2

/-- The value read after a list of ops: the last write to the address, or
zero.  Helper for the claim about `apply_ops` on the initial state. -/
theorem applyOps_get_last_write (segCount : Nat) (a : MemoryAddress)
    (ops : List MemoryOp) (hc : a.context = 0) (hs : a.segment < segCount) :
    ((MemoryState.defaultState segCount).applyOps ops).get a =
      (((ops.filter (fun op =>
          decide (op.kind = MemoryOpKind.write) &&
            decide (op.address = a))).map MemoryOp.value).getLast?).getD 0 := by
  induction ops using List.reverseRecOn with
  | nil =>
    simp only [MemoryState.applyOps, List.foldl_nil, List.filter_nil,
      List.map_nil, List.getLast?_nil, Option.getD_none]
    unfold MemoryState.get MemoryState.defaultState MemoryContextState.defaultState
    rw [hc]
    simp [List.getElem?_replicate, hs, MemorySegmentState.get]
  | append_singleton l op ih =>
    have happly : (MemoryState.defaultState segCount).applyOps (l ++ [op])
        = ((MemoryState.defaultState segCount).applyOps l).applyOp op := by
      unfold MemoryState.applyOps
      rw [List.foldl_append, List.foldl_cons, List.foldl_nil]
    have hshape := applyOps_shape (MemoryState.defaultState segCount) l segCount
      (by rfl) (by
        intro c hcmem
        unfold MemoryState.defaultState MemoryContextState.defaultState at hcmem
        simp only [List.mem_singleton] at hcmem
        subst hcmem
        simp)
    rw [happly, List.filter_append]
    by_cases hk : op.kind = MemoryOpKind.write
    · by_cases ha : op.address = a
      · have hfil : List.filter (fun op =>
            decide (op.kind = MemoryOpKind.write) &&
              decide (op.address = a)) [op] = [op] := by
          simp [List.filter_cons, hk, ha]
        rw [hfil, List.map_append]
        have hlast : ((List.map MemoryOp.value (List.filter (fun op =>
            decide (op.kind = MemoryOpKind.write) &&
              decide (op.address = a)) l)) ++ List.map MemoryOp.value [op]).getLast?
            = some op.value := List.getLast?_concat _
        rw [hlast, Option.getD_some]
        unfold MemoryState.applyOp
        rw [if_pos hk, ha]
        exact memoryState_get_set_self _ a op.value
          (by rw [hshape.1, hc]; omega)
          (by
            intro c hcmem
            rw [hshape.2 c hcmem]
            exact hs)
      · have hfil : List.filter (fun op =>
            decide (op.kind = MemoryOpKind.write) &&
              decide (op.address = a)) [op] = [] := by
          simp [List.filter_cons, ha]
        rw [hfil, List.append_nil]
        unfold MemoryState.applyOp
        rw [if_pos hk]
        rw [memoryState_get_set_ne _ a op.address op.value
          (fun h => ha (by rw [h]))]
        exact ih
    · have hfil : List.filter (fun op =>
          decide (op.kind = MemoryOpKind.write) &&
            decide (op.address = a)) [op] = [] := by
        simp [List.filter_cons, hk]
      rw [hfil, List.append_nil]
      unfold MemoryState.applyOp
      rw [if_neg hk]
      exact ih

/-- C7: out-of-range segment reads return zero; a `set` beyond the
current length zero-extends the content to `virtualAddr + 1` and stores
the value, which `get` then reads back; consequently after `apply_ops`
on the initially-empty `MemoryState`, `get a` returns the value of the
last write-kind op to `a`, or zero when no write to `a` occurred. -/
theorem memory_get_set_apply_ops_spec (segCount : Nat)
    (s : MemorySegmentState) (virtualAddr value : Nat) (a : MemoryAddress)
    (ops : List MemoryOp) (hc : a.context = 0) (hs : a.segment < segCount) :
    (s.content.length ≤ virtualAddr → s.get virtualAddr = 0) ∧
    (s.content.length ≤ virtualAddr →
      (s.set virtualAddr value).content.length = virtualAddr + 1) ∧
    ((s.set virtualAddr value).get virtualAddr = value) ∧
    ((MemoryState.defaultState segCount).applyOps ops).get a =
      (((ops.filter (fun op =>
          decide (op.kind = MemoryOpKind.write) &&
            decide (op.address = a))).map MemoryOp.value).getLast?).getD 0 := by
  refine ⟨?_, ?_, ?_, applyOps_get_last_write segCount a ops hc hs⟩
  · intro h
    unfold MemorySegmentState.get
    rw [List.get?_eq_getElem?, List.getElem?_eq_none h]
    rfl
  · intro h
    unfold MemorySegmentState.set
    dsimp only
    rw [if_pos h, List.length_set, List.length_append, List.length_replicate]
    omega
  · rw [memorySegment_get_set, if_pos rfl]

/-- Witness for C7: two writes and a read to the same address on the
empty state; `get` returns the value of the second write, and an
untouched address reads zero. -/
theorem memory_get_set_apply_ops_spec_witness :
    ((MemoryState.defaultState 2).applyOps
      [MemoryOp.new 3 MemoryChannel.code 0 exAddr MemoryOpKind.write 5,
       MemoryOp.new 3 MemoryChannel.code 1 exAddr MemoryOpKind.write 9,
       MemoryOp.new 3 MemoryChannel.code 2 exAddr MemoryOpKind.read 9]).get exAddr
      = 9 ∧
    ((MemoryState.defaultState 2).applyOps []).get ⟨0, 1, 4⟩ = 0 := by
  constructor
  · rw [(memory_get_set_apply_ops_spec 2 ⟨[]⟩ 0 0 exAddr
      [MemoryOp.new 3 MemoryChannel.code 0 exAddr MemoryOpKind.write 5,
       MemoryOp.new 3 MemoryChannel.code 1 exAddr MemoryOpKind.write 9,
       MemoryOp.new 3 MemoryChannel.code 2 exAddr MemoryOpKind.read 9]
      rfl (by norm_num [exAddr])).2.2.2]
    rfl
  · rw [(memory_get_set_apply_ops_spec 2 ⟨[]⟩ 0 0 ⟨0, 1, 4⟩ [] rfl
      (by norm_num)).2.2.2]
    rfl

/-- A failed association lookup means the key is absent. -/
theorem assocLookup_eq_none_not_mem {α β : Type} [DecidableEq α]
    (l : List (α × β)) (a : α) (h : assocLookup l a = none) :
    a ∉ l.map Prod.fst := by
  induction l with
  | nil => simp
  | cons p rest ih =>
    simp only [assocLookup] at h
    by_cases hp : p.1 = a
    · rw [if_pos hp] at h
      cases h
    · rw [if_neg hp] at h
      simp only [List.map_cons, List.mem_cons]
      rintro (h' | h')
      · exact hp h'.symm
      · exact ih h h'

/-- Case analysis on a successful `set_target_returning_rep`: either the
representative was already populated (equal value, witness unchanged,
`none` returned) or it was absent (value stored, representative
returned). -/
theorem setTargetReturningRep_cases {F : Type} [DecidableEq F]
    (w : PartitionWitness F) (t : Target) (v : F) (w' : PartitionWitness F)
    (o : Option Target) (h : w.setTargetReturningRep t v = .ok (w', o)) :
    (o = none ∧ w' = w) ∨
    (o = some (w.repMap t) ∧ assocLookup w.vals (w.repMap t) = none ∧
      w' = ⟨w.repMap, (w.repMap t, v) :: w.vals⟩) := by
  simp only [PartitionWitness.setTargetReturningRep] at h
  split at h
  next hl =>
    simp only [Except.ok.injEq, Prod.mk.injEq] at h
    exact Or.inr ⟨h.2.symm, hl, h.1.symm⟩
  next v' hl =>
    split at h
    next hv =>
      simp only [Except.ok.injEq, Prod.mk.injEq] at h
      exact Or.inl ⟨h.2.symm, h.1.symm⟩
    next hv => cases h

/-- Facts about a successful buffer drain: the representative map is
unchanged, the value table grows by exactly one entry per returned
representative, every new key is the representative of some buffered
target, and distinctness of keys is preserved. -/
theorem drainBuffer_ok {F : Type} [DecidableEq F] :
    ∀ (buf : List (Target × F)) (w w' : PartitionWitness F)
      (reps : List Target), drainBuffer w buf = .ok (w', reps) →
    w'.repMap = w.repMap ∧
    w'.vals.length = w.vals.length + reps.length ∧
    (∀ k ∈ w'.vals.map Prod.fst,
      k ∈ w.vals.map Prod.fst ∨ ∃ p ∈ buf, k = w.repMap p.1) ∧
    ((w.vals.map Prod.fst).Nodup → (w'.vals.map Prod.fst).Nodup) := by
  intro buf
  induction buf with
  | nil =>
    intro w w' reps h
    simp only [drainBuffer, Except.ok.injEq, Prod.mk.injEq] at h
    obtain ⟨hw, hr⟩ := h
    subst hw
    subst hr
    exact ⟨rfl, rfl, fun k hk => Or.inl hk, fun hd => hd⟩
  | cons p rest ih =>
    intro w w' reps h
    obtain ⟨t, v⟩ := p
    simp only [drainBuffer] at h
    split at h
    next e heq => cases h
    next w1 heq =>
      rcases setTargetReturningRep_cases w t v w1 none heq with
        ⟨-, hw⟩ | ⟨hcontra, -, -⟩
      · rw [hw] at h
        have hr := ih w w' reps h
        refine ⟨hr.1, hr.2.1, fun k hk => ?_, hr.2.2.2⟩
        rcases hr.2.2.1 k hk with h' | ⟨q, hq, hk'⟩
        · exact Or.inl h'
        · exact Or.inr ⟨q, List.mem_cons_of_mem _ hq, hk'⟩
      · cases hcontra
    next w1 r heq =>
      rcases setTargetReturningRep_cases w t v w1 (some r) heq with
        ⟨hcontra, -⟩ | ⟨hro, hlk, hw⟩
      · cases hcontra
      · have hr' : r = w.repMap t := Option.some.inj hro
        subst hr'
        subst hw
        split at h
        next e heq2 => cases h
        next w2 rs heq2 =>
          simp only [Except.ok.injEq, Prod.mk.injEq] at h
          obtain ⟨hw2, hrs⟩ := h
          rw [← hw2, ← hrs]
          have hr := ih _ w2 rs heq2
          refine ⟨hr.1, ?_, fun k hk => ?_, fun hd => ?_⟩
          · rw [hr.2.1]
            simp only [List.length_cons]
            omega
          · rcases hr.2.2.1 k hk with h' | ⟨q, hq, hk'⟩
            · simp only [List.map_cons, List.mem_cons] at h'
              rcases h' with h' | h'
              · exact Or.inr ⟨(t, v), List.mem_cons_self _ _, h'⟩
              · exact Or.inl h'
            · exact Or.inr ⟨q, List.mem_cons_of_mem _ hq, hk'⟩
          · refine hr.2.2.2 ?_
            simp only [List.map_cons, List.nodup_cons]
            exact ⟨assocLookup_eq_none_not_mem _ _ hlk, hd⟩

/-- A successful generator step preserves the value-table invariant, never
shrinks the table, and enqueues new watcher indices only when the table
grew (a step that populates no new representative leaves `next`
unchanged). -/
theorem stepGenerator_ok {F : Type} [DecidableEq F]
    (gens : List (WitnessGenerator F)) (watchIdx : List (Target × List Nat))
    (rm : Target → Target) (allT : List Target) (hE : EmitsInto gens rm allT)
    (st : RoundState F) (next : List Nat) (i : Nat) (st' : RoundState F)
    (next' : List Nat) (log : List (Nat × Bool))
    (h : stepGenerator gens watchIdx st next i = (.ok (st', next'), log))
    (hInv : ValsInv rm allT st.witness) :
    ValsInv rm allT st'.witness ∧
    st.witness.vals.length ≤ st'.witness.vals.length ∧
    (st'.witness.vals.length = st.witness.vals.length → next' = next) := by
  simp only [stepGenerator] at h
  split at h
  · simp only [Prod.mk.injEq, Except.ok.injEq] at h
    obtain ⟨⟨hst, hnext⟩, -⟩ := h
    subst hst
    subst hnext
    exact ⟨hInv, le_refl _, fun _ => rfl⟩
  · split at h
    · simp only [Prod.mk.injEq, Except.ok.injEq] at h
      obtain ⟨⟨hst, hnext⟩, -⟩ := h
      subst hst
      subst hnext
      exact ⟨hInv, le_refl _, fun _ => rfl⟩
    · next g hg =>
      split at h
      next e heq => simp at h
      next w' newReps heq =>
        simp only [Prod.mk.injEq, Except.ok.injEq] at h
        obtain ⟨⟨hst, hnext⟩, -⟩ := h
        have hdr := drainBuffer_ok _ _ _ _ heq
        have hmem : g ∈ gens := List.getElem?_mem hg
        have hInv' : ValsInv rm allT w' := by
          refine ⟨hdr.1.trans hInv.1, hdr.2.2.2 hInv.2.1, fun k hk => ?_⟩
          rcases hdr.2.2.1 k hk with h' | ⟨q, hq, hk'⟩
          · exact hInv.2.2 k h'
          · rw [hk', hInv.1]
            exact hE g hmem st.witness hInv.1 q hq
        refine ⟨?_, ?_, ?_⟩
        · rw [← hst]
          exact hInv'
        · rw [← hst]
          rw [hdr.2.1]
          omega
        · intro hlen
          rw [← hst] at hlen
          rw [hdr.2.1] at hlen
          have hreps : newReps = [] := by
            have : newReps.length = 0 := by omega
            exact List.length_eq_zero.mp this
          rw [← hnext, hreps]
          simp

/-- A successful round preserves the value-table invariant, never shrinks
the table, and leaves the `next` queue untouched when the table did not
grow. -/
theorem runRound_ok {F : Type} [DecidableEq F]
    (gens : List (WitnessGenerator F)) (watchIdx : List (Target × List Nat))
    (rm : Target → Target) (allT : List Target) (hE : EmitsInto gens rm allT) :
    ∀ (pending : List Nat) (st : RoundState F) (next : List Nat)
      (st' : RoundState F) (next1 : List Nat) (log : List (Nat × Bool)),
    runRound gens watchIdx pending st next = (.ok (st', next1), log) →
    ValsInv rm allT st.witness →
    ValsInv rm allT st'.witness ∧
    st.witness.vals.length ≤ st'.witness.vals.length ∧
    (st'.witness.vals.length = st.witness.vals.length → next1 = next) := by
  intro pending
  induction pending with
  | nil =>
    intro st next st' next1 log h hInv
    simp only [runRound, Prod.mk.injEq, Except.ok.injEq] at h
    obtain ⟨⟨hst, hnext⟩, -⟩ := h
    subst hst
    subst hnext
    exact ⟨hInv, le_refl _, fun _ => rfl⟩
  | cons i rest ih =>
    intro st next st' next1 log h hInv
    simp only [runRound] at h
    split at h
    next e log0 heq => simp at h
    next st1 next2 log0 heq =>
      simp only [Prod.mk.injEq] at h
      obtain ⟨hres, -⟩ := h
      cases hrr : runRound gens watchIdx rest st1 next2 with
      | mk res1 log1 =>
        rw [hrr] at hres
        have hres' : res1 = Except.ok (st', next1) := hres
        have hstep := stepGenerator_ok gens watchIdx rm allT hE st next i st1
          next2 log0 heq hInv
        have hih := ih st1 next2 st' next1 log1 (by rw [hrr, hres']) hstep.1
        refine ⟨hih.1, le_trans hstep.2.1 hih.2.1, fun hlen => ?_⟩
        have h1 : st1.witness.vals.length = st.witness.vals.length := by
          have := hstep.2.1
          have := hih.2.1
          omega
        have h2 : st'.witness.vals.length = st1.witness.vals.length := by
          omega
        rw [hih.2.2 h2]
        exact hstep.2.2 h1

/-- The count of populated representatives is bounded by the size of the
target space. -/
theorem valsInv_length_le {F : Type} (rm : Target → Target)
    (allT : List Target) (w : PartitionWitness F) (h : ValsInv rm allT w) :
    w.vals.length ≤ allT.length := by
  have hsub : w.vals.map Prod.fst ⊆ allT := fun k hk => h.2.2 k hk
  have := (h.2.1.subperm hsub).length_le
  simpa using this

/-- With fuel exceeding the number of still-unpopulated representatives,
the fixed-point loop reaches a result: each round that continues strictly
increases the populated count, which is bounded, and a round that
populates nothing empties the queue. -/
theorem loopGen_isSome {F : Type} [DecidableEq F]
    (gens : List (WitnessGenerator F)) (watchIdx : List (Target × List Nat))
    (rm : Target → Target) (allT : List Target) (hE : EmitsInto gens rm allT) :
    ∀ (fuel : Nat) (pending : List Nat) (st : RoundState F),
    ValsInv rm allT st.witness →
    allT.length < st.witness.vals.length + fuel →
    (loopGen gens watchIdx fuel pending st).1.isSome = true := by
  intro fuel
  induction fuel with
  | zero =>
    intro pending st hInv hlt
    have := valsInv_length_le rm allT st.witness hInv
    omega
  | succ fuel ih =>
    intro pending st hInv hlt
    cases pending with
    | nil => simp [loopGen]
    | cons i rest =>
      simp only [loopGen]
      cases hrr : runRound gens watchIdx (i :: rest) st [] with
      | mk res0 log0 =>
        cases res0 with
        | error e => simp
        | ok pr =>
          obtain ⟨st', next⟩ := pr
          simp only
          have hr := runRound_ok gens watchIdx rm allT hE (i :: rest) st []
            st' next log0 hrr hInv
          rcases Nat.lt_or_ge st.witness.vals.length st'.witness.vals.length
            with hgrow | hstay
          · exact ih next st' hr.1 (by omega)
          · have heq : st'.witness.vals.length = st.witness.vals.length := by
              have := hr.2.1
              omega
            rw [hr.2.2 heq]
            simp [loopGen]

/-- Writing the inputs preserves the value-table invariant provided every
input target's representative lies in the target space. -/
theorem setManyTargets_inv {F : Type} [DecidableEq F]
    (rm : Target → Target) (allT : List Target) :
    ∀ (inputs : List (Target × F)) (w w' : PartitionWitness F),
    setManyTargets w inputs = .ok w' → ValsInv rm allT w →
    (∀ p ∈ inputs, rm p.1 ∈ allT) → ValsInv rm allT w' := by
  intro inputs
  induction inputs with
  | nil =>
    intro w w' h hInv hin
    simp only [setManyTargets, Except.ok.injEq] at h
    rw [← h]
    exact hInv
  | cons p rest ih =>
    intro w w' h hInv hin
    obtain ⟨t, v⟩ := p
    simp only [setManyTargets] at h
    split at h
    next e heq => cases h
    next w1 heq =>
      simp only [PartitionWitness.setTarget] at heq
      cases hset : w.setTargetReturningRep t v with
      | error e =>
        rw [hset] at heq
        cases heq
      | ok pr =>
        obtain ⟨w2, o⟩ := pr
        rw [hset] at heq
        simp only [Except.map, Except.ok.injEq] at heq
        have hw12 : w2 = w1 := heq
        have hInv1 : ValsInv rm allT w1 := by
          rcases setTargetReturningRep_cases w t v w2 o hset with
            ⟨-, hw⟩ | ⟨-, hlk, hw⟩
          · rw [← hw12, hw]
            exact hInv
          · rw [← hw12, hw]
            refine ⟨hInv.1, ?_, ?_⟩
            · simp only [List.map_cons, List.nodup_cons]
              exact ⟨assocLookup_eq_none_not_mem _ _ hlk, hInv.2.1⟩
            · intro k hk
              simp only [List.map_cons, List.mem_cons] at hk
              rcases hk with hk | hk
              · rw [hk, hInv.1]
                exact hin (t, v) (List.mem_cons_self _ _)
              · exact hInv.2.2 k hk
        exact ih w1 w' h hInv1 (fun q hq => hin q (List.mem_cons_of_mem _ hq))

/-- C1: the fixed-point loop of `generate_partial_witness` terminates.
With `allT` the (finite) target space — every representative a generator
or an input can populate — fuel `allT.length + 1` always suffices: the
run reaches a result (a witness or an error) rather than exhausting its
round budget, because each round either empties the pending queue or
strictly increases the bounded count of populated representatives. -/
theorem generatePartialWitness_terminates {F : Type} [DecidableEq F]
    (inputs : List (Target × F)) (gens : List (WitnessGenerator F))
    (watchIdx : List (Target × List Nat)) (rm : Target → Target)
    (allT : List Target) (hE : EmitsInto gens rm allT)
    (hin : ∀ p ∈ inputs, rm p.1 ∈ allT) :
    ((generatePartialWitness (allT.length + 1) inputs gens watchIdx
      rm).1).isSome = true := by
  simp only [generatePartialWitness]
  cases hsm : setManyTargets (⟨rm, []⟩ : PartitionWitness F) inputs with
  | error e => simp
  | ok w0 =>
    have hInv : ValsInv rm allT w0 :=
      setManyTargets_inv rm allT inputs ⟨rm, []⟩ w0 hsm
        ⟨rfl, List.nodup_nil, by simp⟩ hin
    have hloop := loopGen_isSome gens watchIdx rm allT hE (allT.length + 1)
      (List.range gens.length) ⟨w0, fun _ => false, gens.length⟩ hInv
      (by omega)
    simpa [Option.isSome_map] using hloop

/-- Witness for C1: a one-generator configuration whose target space is
`[vt 0]`; the run reaches a result within `1 + 1` rounds of fuel. -/
theorem generatePartialWitness_terminates_witness :
    (∀ g ∈ [exFinishGenA], ∀ w : PartitionWitness Nat, w.repMap = idRep →
      ∀ p ∈ (g.run w).2, idRep p.1 ∈ [vt 0]) ∧
    ((generatePartialWitness ([vt 0].length + 1) ([] : List (Target × Nat))
      [exFinishGenA] [] idRep).1).isSome = true := by
  have hE : ∀ g ∈ [exFinishGenA], ∀ w : PartitionWitness Nat,
      w.repMap = idRep → ∀ p ∈ (g.run w).2, idRep p.1 ∈ [vt 0] := by
    intro g hg w hw p hp
    simp only [List.mem_singleton] at hg
    subst hg
    simp only [exFinishGenA, List.mem_singleton] at hp
    subst hp
    simp [idRep]
  exact ⟨hE, generatePartialWitness_terminates [] [exFinishGenA] [] idRep
    [vt 0] hE (by simp)⟩

/-- The empty log never re-runs anything. -/
theorem noReRun_nil : NoReRun [] := by
  intro i l1 l2 h b hmem
  have hlen := congrArg List.length h
  simp only [List.length_nil, List.length_append, List.length_cons] at hlen
  omega

/-- A one-entry log never re-runs anything. -/
theorem noReRun_singleton (e : Nat × Bool) : NoReRun [e] := by
  intro i l1 l2 h b hmem
  cases l1 with
  | nil =>
    simp only [List.nil_append, List.cons.injEq] at h
    rw [← h.2] at hmem
    cases hmem
  | cons x xs =>
    simp only [List.cons_append, List.cons.injEq] at h
    have h2 := h.2
    cases xs <;> simp at h2

/-- The empty log avoids every expired set. -/
theorem avoidsExpired_nil (expired : Nat → Bool) : AvoidsExpired expired [] :=
  fun _ _ _ hmem => List.not_mem_nil _ hmem

/-- Avoidance is preserved under concatenation. -/
theorem avoidsExpired_append (expired : Nat → Bool)
    (l1 l2 : List (Nat × Bool)) (h1 : AvoidsExpired expired l1)
    (h2 : AvoidsExpired expired l2) : AvoidsExpired expired (l1 ++ l2) := by
  intro i b hi hmem
  rcases List.mem_append.mp hmem with h | h
  · exact h1 i b hi h
  · exact h2 i b hi h

/-- A log avoiding a larger expired set avoids a smaller one. -/
theorem avoidsExpired_mono (e e' : Nat → Bool) (l : List (Nat × Bool))
    (hmono : ∀ j, e j = true → e' j = true) (h : AvoidsExpired e' l) :
    AvoidsExpired e l :=
  fun i b hi hmem => h i b (hmono i hi) hmem

/-- Concatenating two no-re-run logs stays no-re-run provided no index
finished in the first log appears in the second. -/
theorem noReRun_append (l1 l2 : List (Nat × Bool)) (h1 : NoReRun l1)
    (h2 : NoReRun l2)
    (hcross : ∀ i, (i, true) ∈ l1 → ∀ b, (i, b) ∉ l2) :
    NoReRun (l1 ++ l2) := by
  intro i a c h b hmem
  rcases List.append_eq_append_iff.mp h with ⟨a', ha, hc⟩ | ⟨c', ha, hc⟩
  · exact h2 i a' c hc b hmem
  · cases c' with
    | nil =>
      simp only [List.nil_append] at hc
      exact h2 i [] c (by simpa using hc.symm) b hmem
    | cons x c'' =>
      simp only [List.cons_append, List.cons.injEq] at hc
      obtain ⟨hx1, hx2⟩ := hc
      rw [hx2] at hmem
      rcases List.mem_append.mp hmem with h' | h'
      · refine h1 i a c'' ?_ b h'
        rw [ha, ← hx1]
      · refine hcross i ?_ b h'
        rw [ha, ← hx1]
        exact List.mem_append_right a (List.mem_cons_self _ _)

/-- Log facts for one step: a step never logs an already-expired index,
never logs an index twice, only extends the expired set, and any index it
logs as finished is expired in the resulting state. -/
theorem stepGenerator_log {F : Type} [DecidableEq F]
    (gens : List (WitnessGenerator F)) (watchIdx : List (Target × List Nat))
    (st : RoundState F) (next : List Nat) (i : Nat)
    (res : Except GenErr (RoundState F × List Nat)) (log : List (Nat × Bool))
    (h : stepGenerator gens watchIdx st next i = (res, log)) :
    AvoidsExpired st.expired log ∧ NoReRun log ∧
    (∀ st' next', res = .ok (st', next') →
      (∀ j, st.expired j = true → st'.expired j = true) ∧
      (∀ j, (j, true) ∈ log → st'.expired j = true)) := by
  simp only [stepGenerator] at h
  split at h
  next hexp =>
    simp only [Prod.mk.injEq] at h
    obtain ⟨hres, hlog⟩ := h
    subst hlog
    refine ⟨avoidsExpired_nil _, noReRun_nil, ?_⟩
    intro st' next' hok
    rw [← hres] at hok
    simp only [Except.ok.injEq, Prod.mk.injEq] at hok
    obtain ⟨hst, -⟩ := hok
    refine ⟨fun j hj => ?_, fun j hj => ?_⟩
    · rw [← hst]
      exact hj
    · cases hj
  next hexp =>
    split at h
    · simp only [Prod.mk.injEq] at h
      obtain ⟨hres, hlog⟩ := h
      subst hlog
      refine ⟨avoidsExpired_nil _, noReRun_nil, ?_⟩
      intro st' next' hok
      rw [← hres] at hok
      simp only [Except.ok.injEq, Prod.mk.injEq] at hok
      obtain ⟨hst, -⟩ := hok
      refine ⟨fun j hj => ?_, fun j hj => ?_⟩
      · rw [← hst]
        exact hj
      · cases hj
    · next g hg =>
      split at h
      next e heq =>
        simp only [Prod.mk.injEq] at h
        obtain ⟨hres, hlog⟩ := h
        subst hlog
        refine ⟨?_, noReRun_singleton _, ?_⟩
        · intro j b hj hmem
          simp only [List.mem_singleton, Prod.mk.injEq] at hmem
          rw [hmem.1] at hj
          exact hexp hj
        · intro st' next' hok
          rw [← hres] at hok
          cases hok
      next w' newReps heq =>
        simp only [Prod.mk.injEq] at h
        obtain ⟨hres, hlog⟩ := h
        subst hlog
        refine ⟨?_, noReRun_singleton _, ?_⟩
        · intro j b hj hmem
          simp only [List.mem_singleton, Prod.mk.injEq] at hmem
          rw [hmem.1] at hj
          exact hexp hj
        · intro st' next' hok
          rw [← hres] at hok
          simp only [Except.ok.injEq, Prod.mk.injEq] at hok
          obtain ⟨hst, -⟩ := hok
          constructor
          · intro j hj
            rw [← hst]
            by_cases hfin : (g.run st.witness).1 = true
            · simp only [hfin, if_true]
              by_cases hji : j = i
              · simp [hji]
              · simp [hji, hj]
            · simp only [Bool.not_eq_true] at hfin
              simp [hfin, hj]
          · intro j hj
            simp only [List.mem_singleton, Prod.mk.injEq] at hj
            rw [← hst]
            rw [hj.1]
            rw [← hj.2]
            simp

/-- Log facts for one round: the round's log never mentions an index
expired at round start, never re-runs a finished index, and (on success)
the expired set only grows, containing every index logged as finished. -/
theorem runRound_log {F : Type} [DecidableEq F]
    (gens : List (WitnessGenerator F)) (watchIdx : List (Target × List Nat)) :
    ∀ (pending : List Nat) (st : RoundState F) (next : List Nat)
      (res : Except GenErr (RoundState F × List Nat))
      (log : List (Nat × Bool)),
    runRound gens watchIdx pending st next = (res, log) →
    AvoidsExpired st.expired log ∧ NoReRun log ∧
    (∀ st' next1, res = .ok (st', next1) →
      (∀ j, st.expired j = true → st'.expired j = true) ∧
      (∀ j, (j, true) ∈ log → st'.expired j = true)) := by
  intro pending
  induction pending with
  | nil =>
    intro st next res log h
    simp only [runRound, Prod.mk.injEq] at h
    obtain ⟨hres, hlog⟩ := h
    subst hlog
    refine ⟨avoidsExpired_nil _, noReRun_nil, ?_⟩
    intro st' next1 hok
    rw [← hres] at hok
    simp only [Except.ok.injEq, Prod.mk.injEq] at hok
    obtain ⟨hst, -⟩ := hok
    refine ⟨fun j hj => ?_, fun j hj => ?_⟩
    · rw [← hst]
      exact hj
    · cases hj
  | cons i rest ih =>
    intro st next res log h
    simp only [runRound] at h
    split at h
    next e log0 heq =>
      simp only [Prod.mk.injEq] at h
      obtain ⟨hres, hlog⟩ := h
      subst hlog
      have hstep := stepGenerator_log gens watchIdx st next i (.error e)
        log0 heq
      refine ⟨hstep.1, hstep.2.1, ?_⟩
      intro st' next1 hok
      rw [← hres] at hok
      cases hok
    next st1 next2 log0 heq =>
      simp only [Prod.mk.injEq] at h
      obtain ⟨hres, hlog⟩ := h
      cases hrr : runRound gens watchIdx rest st1 next2 with
      | mk res1 log1 =>
        rw [hrr] at hres hlog
        have hres1 : res1 = res := hres
        have hlog1 : log0 ++ log1 = log := hlog
        subst hlog1
        have hstep := stepGenerator_log gens watchIdx st next i
          (.ok (st1, next2)) log0 heq
        have hstepok := hstep.2.2 st1 next2 rfl
        have hih := ih st1 next2 res1 log1 hrr
        refine ⟨?_, ?_, ?_⟩
        · refine avoidsExpired_append _ _ _ hstep.1 ?_
          exact avoidsExpired_mono _ _ _ hstepok.1 hih.1
        · refine noReRun_append _ _ hstep.2.1 hih.2.1 ?_
          intro j hj b hmem
          exact hih.1 j b (hstepok.2 j hj) hmem
        · intro st' next1 hok
          rw [← hres1] at hok
          have hihok := hih.2.2 st' next1 hok
          refine ⟨fun j hj => hihok.1 j (hstepok.1 j hj), fun j hj => ?_⟩
          rcases List.mem_append.mp hj with h' | h'
          · exact hihok.1 j (hstepok.2 j h')
          · exact hihok.2 j h'

/-- Log facts for the whole loop: across all rounds, no expired index is
ever invoked again and no index is invoked after an invocation returned
`true`. -/
theorem loopGen_log {F : Type} [DecidableEq F]
    (gens : List (WitnessGenerator F)) (watchIdx : List (Target × List Nat)) :
    ∀ (fuel : Nat) (pending : List Nat) (st : RoundState F)
      (res : Option (Except GenErr (RoundState F)))
      (log : List (Nat × Bool)),
    loopGen gens watchIdx fuel pending st = (res, log) →
    AvoidsExpired st.expired log ∧ NoReRun log := by
  intro fuel
  induction fuel with
  | zero =>
    intro pending st res log h
    cases pending with
    | nil =>
      simp only [loopGen, Prod.mk.injEq] at h
      rw [← h.2]
      exact ⟨avoidsExpired_nil _, noReRun_nil⟩
    | cons i rest =>
      simp only [loopGen, Prod.mk.injEq] at h
      rw [← h.2]
      exact ⟨avoidsExpired_nil _, noReRun_nil⟩
  | succ fuel ih =>
    intro pending st res log h
    cases pending with
    | nil =>
      simp only [loopGen, Prod.mk.injEq] at h
      rw [← h.2]
      exact ⟨avoidsExpired_nil _, noReRun_nil⟩
    | cons i rest =>
      simp only [loopGen] at h
      split at h
      next e log0 heq =>
        simp only [Prod.mk.injEq] at h
        rw [← h.2]
        have hround := runRound_log gens watchIdx (i :: rest) st []
          (.error e) log0 heq
        exact ⟨hround.1, hround.2.1⟩
      next st' nextp log0 heq =>
        simp only [Prod.mk.injEq] at h
        obtain ⟨-, hlog⟩ := h
        cases hlg : loopGen gens watchIdx fuel nextp st' with
        | mk res1 log1 =>
          rw [hlg] at hlog
          have hlog1 : log0 ++ log1 = log := hlog
          rw [← hlog1]
          have hround := runRound_log gens watchIdx (i :: rest) st []
            (.ok (st', nextp)) log0 heq
          have hroundok := hround.2.2 st' nextp rfl
          have hih := ih nextp st' res1 log1 hlg
          refine ⟨?_, ?_⟩
          · refine avoidsExpired_append _ _ _ hround.1 ?_
            exact avoidsExpired_mono _ _ _ hroundok.1 hih.1
          · refine noReRun_append _ _ hround.2.1 hih.2 ?_
            intro j hj b hmem
            exact hih.1 j b (hroundok.2 j hj) hmem

/-- Positional reading of `NoReRun`: a `(i, true)` entry is never
followed, at any later position, by another entry for `i`. -/
theorem noReRun_get? (log : List (Nat × Bool)) (h : NoReRun log)
    (p q i : Nat) (b : Bool) (hpq : p < q)
    (hp : log.get? p = some (i, true)) (hq : log.get? q = some (i, b)) :
    False := by
  have hplen : p < log.length := by
    by_contra hge
    rw [List.get?_eq_getElem?, List.getElem?_eq_none (by omega)] at hp
    cases hp
  have hgetp : log.get ⟨p, hplen⟩ = (i, true) := by
    have := List.get?_eq_get hplen
    rw [this] at hp
    exact Option.some.inj hp
  have hsplit : log = log.take p ++ (i, true) :: log.drop (p + 1) := by
    conv_lhs => rw [← List.take_append_drop p log]
    rw [List.drop_eq_getElem_cons hplen]
    have : log[p] = (i, true) := hgetp
    rw [this]
  have hmem : (i, b) ∈ log.drop (p + 1) := by
    have hd : (log.drop (p + 1)).get? (q - (p + 1)) = some (i, b) := by
      rw [List.get?_drop]
      have : p + 1 + (q - (p + 1)) = q := by omega
      rw [this]
      exact hq
    exact List.get?_mem hd
  exact h i (log.take p) (log.drop (p + 1)) hsplit b hmem

/-- C4: during a run of `generate_partial_witness`, once an invocation of
generator `i` returns `true` (the generator is marked expired), `run` is
never invoked on generator `i` again — neither later in the same round
nor in any later round, whatever targets are populated afterwards.  The
invocation log records every call of `run` in order. -/
theorem generatePartialWitness_no_rerun {F : Type} [DecidableEq F]
    (fuel : Nat) (inputs : List (Target × F))
    (gens : List (WitnessGenerator F)) (watchIdx : List (Target × List Nat))
    (rm : Target → Target) (p q i : Nat) (b : Bool) (hpq : p < q)
    (hp : (generatePartialWitness fuel inputs gens watchIdx rm).2.get? p
      = some (i, true)) :
    (generatePartialWitness fuel inputs gens watchIdx rm).2.get? q
      ≠ some (i, b) := by
  intro hq
  have hnrr : NoReRun (generatePartialWitness fuel inputs gens watchIdx
      rm).2 := by
    simp only [generatePartialWitness]
    cases hsm : setManyTargets (⟨rm, []⟩ : PartitionWitness F) inputs with
    | error e => exact noReRun_nil
    | ok w0 =>
      cases hlg : loopGen gens watchIdx fuel (List.range gens.length)
          ⟨w0, fun _ => false, gens.length⟩ with
      | mk res0 log0 =>
        have := loopGen_log gens watchIdx fuel (List.range gens.length)
          ⟨w0, fun _ => false, gens.length⟩ res0 log0 hlg
        simpa [hlg] using this.2
  exact noReRun_get? _ hnrr p q i b hpq hp hq

/-- Witness for C4: two one-shot generators; the log of the run is
`[(0, true), (1, true)]`, generator 0 finishes at position 0 and is not
invoked at position 1. -/
theorem generatePartialWitness_no_rerun_witness :
    (generatePartialWitness 1 ([] : List (Target × Nat))
      [exFinishGenA, exFinishGenB] [] idRep).2.get? 0 = some (0, true) ∧
    (generatePartialWitness 1 ([] : List (Target × Nat))
      [exFinishGenA, exFinishGenB] [] idRep).2.get? 1 ≠ some (0, true) :=
  ⟨rfl, generatePartialWitness_no_rerun 1 [] [exFinishGenA, exFinishGenB]
    [] idRep 0 1 0 true (by omega) rfl⟩

/-- C2 (amended): when the fixed-point loop ends with `remaining ≠ 0`
generators non-expired, `generate_partial_witness` fails with the
stalled error carrying exactly the count of unfinished generators — the
source's `assert_eq!(remaining_generators, 0, "{} generators weren't
run", ...)` message, which reports only the count — and it does not
return a witness. -/
theorem generatePartialWitness_stalled_count {F : Type} [DecidableEq F]
    (fuel : Nat) (inputs : List (Target × F))
    (gens : List (WitnessGenerator F)) (watchIdx : List (Target × List Nat))
    (rm : Target → Target) (w0 : PartitionWitness F) (st : RoundState F)
    (log : List (Nat × Bool))
    (hsm : setManyTargets (⟨rm, []⟩ : PartitionWitness F) inputs = .ok w0)
    (hloop : loopGen gens watchIdx fuel (List.range gens.length)
      ⟨w0, fun _ => false, gens.length⟩ = (some (.ok st), log))
    (hrem : st.remaining ≠ 0) :
    (generatePartialWitness fuel inputs gens watchIdx rm).1
      = some (.error (.stalled st.remaining)) ∧
    ∀ w : PartitionWitness F,
      (generatePartialWitness fuel inputs gens watchIdx rm).1
        ≠ some (.ok w) := by
  have hmain : (generatePartialWitness fuel inputs gens watchIdx rm).1
      = some (.error (.stalled st.remaining)) := by
    simp only [generatePartialWitness]
    rw [hsm]
    simp only [hloop, Option.map_some', Except.bind]
    rw [if_neg hrem]
  refine ⟨hmain, fun w hw => ?_⟩
  rw [hmain] at hw
  simp at hw

/-- Witness for C2: one permanently-unsatisfied generator; the run ends
with the stalled error carrying count 1 and returns no witness. -/
theorem generatePartialWitness_stalled_count_witness :
    (generatePartialWitness 1 ([] : List (Target × Nat)) [exStallCopyGen]
      [] idRep).1 = some (.error (.stalled 1)) :=
  (generatePartialWitness_stalled_count 1 [] [exStallCopyGen] [] idRep
    ⟨idRep, []⟩ ⟨⟨idRep, []⟩, fun _ => false, 1⟩ [(0, false)] rfl rfl
    (by decide)).1

/-- Counterexample for C2 as stated: the stalled outcome is identical for
two configurations whose sole stalled generator carries different ids, so
the error cannot report the stalled generator's id (or its watch list):
the source's assert carries only the count. -/
theorem generatePartialWitness_stalled_no_ids :
    (generatePartialWitness 1 ([] : List (Target × Nat)) [exStallCopyGen]
      [] idRep).1 = some (.error (.stalled 1)) ∧
    (generatePartialWitness 1 ([] : List (Target × Nat)) [exStallOtherGen]
      [] idRep).1 = some (.error (.stalled 1)) ∧
    (generatePartialWitness 1 ([] : List (Target × Nat)) [exStallCopyGen]
      [] idRep).2 =
      (generatePartialWitness 1 ([] : List (Target × Nat)) [exStallOtherGen]
        [] idRep).2 ∧
    exStallCopyGen.id ≠ exStallOtherGen.id := by
  refine ⟨rfl, rfl, rfl, ?_⟩
  simp [exStallCopyGen, exStallOtherGen]
